import Mathlib

/-!
Verification of the assert-introspection GCC-plugin snippets
(`complex_rewrite.c`, `basic_rewrite.c`).

The plugin rewrites the failure branch of an `assert`'s `COND_EXPR` into
diagnostic `printf` code.  We shallowly embed:

* the expression trees the plugin walks (`Expr`, with the `tree_code`
  operator kinds the plugin's `get_expr_op_repr` switch distinguishes);
* C evaluation of such trees (`evalVal` for values, `evalC` for the
  effect/memoization-aware semantics: the accompanying text states that in
  the real plugin every sub-expression is wrapped in a `SAVE_EXPR`, which
  evaluates the wrapped expression at most once and caches its value);
* the static format builder `create_expression_repr`;
* the runtime diagnostic generator `make_conditional_expr_repr`, whose
  output is a tree of generated statements (`GS`) executed by `execGS`;
* the host-tree matching layer `is_assert_fail_cond_expr`,
  `patch_assert` and `iterate_function_body` over a program-tree model
  `PTree`.
-/

/-- Runtime environment: values of variables and the (pure) input/output
behaviour of called functions.  Side effects are modelled by the traces
the evaluators return, not inside `Env`. -/
structure Env where
  var : Nat → Int
  fn : Nat → Int → Int

/-- Position of a sub-expression inside the condition tree: the list of
operand indices (`false` = operand 0, `true` = operand 1) from the root.
Paths give every node of one condition a stable identity, standing for the
per-node `SAVE_EXPR` cells. -/
abbrev NodePath := List Bool

/-- The `TREE_CODE`s that `get_expr_op_repr` switches over, plus
`TRUNC_MOD_EXPR` as a representative binary code that is absent from the
switch (the C `default:` case). -/
inductive tree_code where
  | EQ_EXPR
  | NE_EXPR
  | TRUTH_ANDIF_EXPR
  | TRUTH_AND_EXPR
  | TRUTH_ORIF_EXPR
  | TRUTH_OR_EXPR
  | PLUS_EXPR
  | MINUS_EXPR
  | MULT_EXPR
  | TRUNC_DIV_EXPR
  | TRUNC_MOD_EXPR
deriving DecidableEq

/-- Expression trees as the plugin sees them: integer constants,
variables, function calls (the canonical effectful leaf from the post's
double-evaluation example) and binary nodes carrying a `tree_code`. -/
inductive Expr where
  | intcst (n : Int)
  | var (v : Nat)
  | call (f : Nat) (arg : Expr)
  | bin (c : tree_code) (l r : Expr)
deriving DecidableEq

/-- Strict value of a binary operator, mirroring C semantics for the codes
in `get_expr_op_repr`'s switch (truth operators yield 0/1, division and
remainder truncate toward zero) plus `TRUNC_MOD_EXPR`. -/
def binApply : tree_code → Int → Int → Int
  | .EQ_EXPR, a, b => if a = b then 1 else 0
  | .NE_EXPR, a, b => if a = b then 0 else 1
  | .TRUTH_ANDIF_EXPR, a, b => if a ≠ 0 ∧ b ≠ 0 then 1 else 0
  | .TRUTH_AND_EXPR, a, b => if a ≠ 0 ∧ b ≠ 0 then 1 else 0
  | .TRUTH_ORIF_EXPR, a, b => if a ≠ 0 ∨ b ≠ 0 then 1 else 0
  | .TRUTH_OR_EXPR, a, b => if a ≠ 0 ∨ b ≠ 0 then 1 else 0
  | .PLUS_EXPR, a, b => a + b
  | .MINUS_EXPR, a, b => a - b
  | .MULT_EXPR, a, b => a * b
  | .TRUNC_DIV_EXPR, a, b => a.tdiv b
  | .TRUNC_MOD_EXPR, a, b => a.tmod b

/-- Pure value of an expression under an environment.  Short-circuiting
does not change values (only effects), so the value of every binary node
is `binApply` of its operands' values. -/
def evalVal (env : Env) : Expr → Int
  | .intcst n => n
  | .var v => env.var v
  | .call f a => env.fn f (evalVal env a)
  | .bin c l r => binApply c (evalVal env l) (evalVal env r)

/-- Modelled from the spec: the `SAVE_EXPR` operand capture
(`wrap_in_save_expr` in the full plugin) is omitted from the snippets —
the post says "I omitted many parts for brevity (i.e, no `SAVE_EXPR`s
handling here)".  Per the spec's OperandCaptureWrapper contract, every
node of the condition is wrapped so that it "evaluates the underlying
expression exactly once, on first access, and returns the cached value on
every later access".  Evaluation is deterministic, so the cached value of
the node at path `p` equals `evalVal`; the memo state is therefore just
the set of already-evaluated paths.  `evalC env e p s` evaluates the
(wrapped) node `e` sitting at path `p` with memo set `s`, following the C
short-circuit rules for `TRUTH_ANDIF_EXPR`/`TRUTH_ORIF_EXPR`, and returns
the value, the new memo set and the trace of paths evaluated afresh (in
effect order). -/
def evalC (env : Env) : Expr → NodePath → List NodePath → Int × List NodePath × List NodePath
  | .intcst n, p, s =>
    if p ∈ s then (n, s, []) else (n, p :: s, [p])
  | .var v, p, s =>
    if p ∈ s then (env.var v, s, []) else (env.var v, p :: s, [p])
  | .call f a, p, s =>
    if p ∈ s then (env.fn f (evalVal env a), s, [])
    else
      let (va, s1, t1) := evalC env a (p ++ [false]) s
      (env.fn f va, p :: s1, t1 ++ [p])
  | .bin c l r, p, s =>
    if p ∈ s then (evalVal env (.bin c l r), s, [])
    else
      match c with
      | .TRUTH_ANDIF_EXPR =>
        let (vl, s1, t1) := evalC env l (p ++ [false]) s
        if vl = 0 then (0, p :: s1, t1 ++ [p])
        else
          let (vr, s2, t2) := evalC env r (p ++ [true]) s1
          (if vr ≠ 0 then 1 else 0, p :: s2, t1 ++ t2 ++ [p])
      | .TRUTH_ORIF_EXPR =>
        let (vl, s1, t1) := evalC env l (p ++ [false]) s
        if vl = 0 then
          let (vr, s2, t2) := evalC env r (p ++ [true]) s1
          (if vr ≠ 0 then 1 else 0, p :: s2, t1 ++ t2 ++ [p])
        else (1, p :: s1, t1 ++ [p])
      | c' =>
        let (vl, s1, t1) := evalC env l (p ++ [false]) s
        let (vr, s2, t2) := evalC env r (p ++ [true]) s1
        (binApply c' vl vr, p :: s2, t1 ++ t2 ++ [p])

/-- `get_expr_op_repr` of `complex_rewrite.c`: the switch over `TREE_CODE`
mapping recognized operator kinds to display glyphs; every other kind
(the `default:` case — here the leaf constructors and `TRUNC_MOD_EXPR`)
yields `NULL`, i.e. `none`. -/
def get_expr_op_repr (e : Expr) : Option String :=
  match e with
  | .bin c _ _ =>
    match c with
    | .EQ_EXPR => some "=="
    | .NE_EXPR => some "!="
    | .TRUTH_AND_EXPR => some "&&"
    | .TRUTH_ANDIF_EXPR => some "&&"
    | .TRUTH_OR_EXPR => some "||"
    | .TRUTH_ORIF_EXPR => some "||"
    | .PLUS_EXPR => some "+"
    | .MINUS_EXPR => some "-"
    | .MULT_EXPR => some "*"
    | .TRUNC_DIV_EXPR => some "/"
    | .TRUNC_MOD_EXPR => none
  | _ => none

/-- `create_expression_repr` of the first snippet: builds the
`printf` format string (parenthesizing both operands of every recognized
binary operator, `"(%s) %s (%s)"`) and pushes every leaf onto the
argument vector (`vec_safe_push`) in left-to-right order, rendering it as
`"%d"`. -/
def create_expression_repr : Expr → List Expr → String × List Expr
  | .bin c l r, args =>
    match get_expr_op_repr (.bin c l r) with
    | some op =>
      let (lf, args1) := create_expression_repr l args
      let (rf, args2) := create_expression_repr r args1
      ("(" ++ lf ++ ") " ++ op ++ " (" ++ rf ++ ")", args2)
    | none => ("%d", args ++ [.bin c l r])
  | e, args => ("%d", args ++ [e])

/-- Leaf expressions of a condition in left-to-right source order: the
nodes `get_expr_op_repr` does not recognize as binary operators. -/
def leaves : Expr → List Expr
  | .bin c l r =>
    match get_expr_op_repr (.bin c l r) with
    | some _ => leaves l ++ leaves r
    | none => [.bin c l r]
  | e => [e]

/-- Generated diagnostic statements, the vocabulary
`make_conditional_expr_repr` emits: `printf` of a literal format
(`make_printf(format, NULL)`), `printf("%d", expr)` for one captured
value (the value at path `p`), statement sequencing
(`append_to_statement_list`), a conditional (`_build_conditional_expr`)
branching on the captured expression at path `p`, and the empty statement
(`build_empty_stmt`). -/
inductive GS where
  | printf (s : String)
  | printf_d (e : Expr) (p : NodePath)
  | seq (a b : GS)
  | cond (e : Expr) (p : NodePath) (thn els : GS)
  | empty

/-- `make_conditional_expr_repr` of `complex_rewrite.c`: for
`TRUTH_ANDIF_EXPR`/`TRUTH_AND_EXPR` build a conditional on the left
operand — right statements `(...) && (` right `)` if it passes, left
statements otherwise; for `TRUTH_ORIF_EXPR`/`TRUTH_OR_EXPR` build a
conditional on the whole expression — empty if it passes, `(` left
`) || (` right `)` otherwise; else if `get_expr_op_repr` recognizes the
code, print left, `" op "`, right; else print the plain value `"%d"`. -/
def make_conditional_expr_repr : Expr → NodePath → GS
  | .bin c l r, p =>
    if c = .TRUTH_ANDIF_EXPR ∨ c = .TRUTH_AND_EXPR then
      GS.cond l (p ++ [false])
        (GS.seq (GS.printf "(...) && (")
          (GS.seq (make_conditional_expr_repr r (p ++ [true])) (GS.printf ")")))
        (make_conditional_expr_repr l (p ++ [false]))
    else if c = .TRUTH_ORIF_EXPR ∨ c = .TRUTH_OR_EXPR then
      GS.cond (.bin c l r) p GS.empty
        (GS.seq (GS.printf "(")
          (GS.seq (make_conditional_expr_repr l (p ++ [false]))
            (GS.seq (GS.printf ") || (")
              (GS.seq (make_conditional_expr_repr r (p ++ [true])) (GS.printf ")")))))
    else
      match get_expr_op_repr (.bin c l r) with
      | some op =>
        GS.seq (make_conditional_expr_repr l (p ++ [false]))
          (GS.seq (GS.printf (" " ++ op ++ " "))
            (make_conditional_expr_repr r (p ++ [true])))
      | none => GS.printf_d (.bin c l r) p
  | e, p => GS.printf_d e p

/-- Runtime execution of generated diagnostic statements: returns the
printed output, the updated memo set and the trace of fresh evaluations.
A conditional evaluates its (captured) condition, then exactly one
branch. -/
def execGS (env : Env) : GS → List NodePath → String × List NodePath × List NodePath
  | .printf str, s => (str, s, [])
  | .printf_d e p, s =>
    let (v, s1, t) := evalC env e p s
    (toString v, s1, t)
  | .seq a b, s =>
    let (o1, s1, t1) := execGS env a s
    let (o2, s2, t2) := execGS env b s1
    (o1 ++ o2, s2, t1 ++ t2)
  | .cond e p a b, s =>
    let (v, s1, t) := evalC env e p s
    if v = 0 then
      let (o, s2, t2) := execGS env b s1
      (o, s2, t ++ t2)
    else
      let (o, s2, t2) := execGS env a s1
      (o, s2, t ++ t2)
  | .empty, s => ("", s, [])

/-- Pure output of generated statements: since every captured value is
`evalVal` of its expression, the printed text depends only on the
environment and the statement tree. -/
def gsOut (env : Env) : GS → String
  | .printf s => s
  | .printf_d e _ => toString (evalVal env e)
  | .seq a b => gsOut env a ++ gsOut env b
  | .cond e _ a b => if evalVal env e = 0 then gsOut env b else gsOut env a
  | .empty => ""

/-- One runtime check of a patched assertion: evaluate the (captured)
condition from an empty memo state; if it fails, execute the generated
failure-branch statements with the memo state the condition evaluation
left behind.  Returns the condition value, the printed diagnostic and the
combined evaluation trace. -/
def run_patched_assert (env : Env) (e : Expr) : Int × String × List NodePath :=
  let (v, s1, t1) := evalC env e [] []
  if v = 0 then
    let (o, _, t2) := execGS env (make_conditional_expr_repr e []) s1
    (v, o, t1 ++ t2)
  else (v, "", t1)

/-- Host program trees for the matching layer: `BIND_EXPR`,
`STATEMENT_LIST`, `COND_EXPR`, `NOP_EXPR`, a `CALL_EXPR` (its
`CALL_EXPR_FN` operand), `ADDR_EXPR`, `FUNCTION_DECL` with its
`DECL_NAME`, the spliced generated diagnostic code, and any other
statement kind. -/
inductive PTree where
  | bind (body : PTree)
  | stmts (l : List PTree)
  | cond (c : Expr) (thn els : PTree)
  | nop (t : PTree)
  | call (fn : PTree)
  | addr (t : PTree)
  | func_decl (name : String)
  | gen (g : GS)
  | other (id : Nat)

/-- `is_assert_fail_cond_expr`: the statement is a `COND_EXPR`, its
then-branch is a `NOP_EXPR`, its else-branch is a `CALL_EXPR` through an
`ADDR_EXPR` of a `FUNCTION_DECL` whose name is exactly
`"__assert_fail"`. -/
def is_assert_fail_cond_expr : PTree → Bool
  | .cond _ thn els =>
    (match thn with
     | .nop _ => true
     | _ => false) &&
    (match els with
     | .call (.addr (.func_decl name)) => name == "__assert_fail"
     | _ => false)
  | _ => false

/-- `patch_assert` of `complex_rewrite.c`: replace `COND_EXPR_ELSE` with
the diagnostic code `make_conditional_expr_repr` builds from
`COND_EXPR_COND`; nothing else of the node is touched. -/
def patch_assert : PTree → PTree
  | .cond c thn _ => .cond c thn (.gen (make_conditional_expr_repr c []))
  | t => t

mutual

/-- The body-processing part of `iterate_function_body`: a
`STATEMENT_LIST` body is walked statement by statement; any other body is
patched exactly when `is_assert_fail_cond_expr` matches it, and left
unmodified otherwise. -/
def iterate_body : PTree → PTree
  | .stmts l => .stmts (iterate_stmts l)
  | body => if is_assert_fail_cond_expr body then patch_assert body else body

/-- The statement-list loop of `iterate_function_body`: recurse into
`BIND_EXPR` statements, leave every other statement untouched. -/
def iterate_stmts : List PTree → List PTree
  | [] => []
  | .bind b :: rest => .bind (iterate_body b) :: iterate_stmts rest
  | s :: rest => s :: iterate_stmts rest

end

/-- `iterate_function_body`: take the body of a `BIND_EXPR`, or the tree
itself when it is a `STATEMENT_LIST`; anything else trips the
`gcc_assert` (an internal compiler abort), modelled as `none`. -/
def iterate_function_body : PTree → Option PTree
  | .bind body => some (.bind (iterate_body body))
  | .stmts l => some (.stmts (iterate_stmts l))
  | _ => none

/-! ## Basic lemmas about paths and the evaluators -/

/-- A strict extension of a path is a different path. -/
theorem ext_ne_self (p : NodePath) (b : Bool) (u : NodePath) :
    p ++ [b] ++ u ≠ p := by
  intro h
  have hlen := congrArg List.length h
  simp [List.length_append] at hlen

/-- Extensions of the two distinct child paths are distinct. -/
theorem ext_disj (p : NodePath) (u v : NodePath) :
    p ++ [false] ++ u ≠ p ++ [true] ++ v := by
  intro h
  have h2 := List.append_inj h (by simp)
  have h3 := List.append_cancel_left h2.1
  simp at h3

/-- A memoized (already evaluated) node yields its cached value with no
fresh evaluation. -/
theorem evalC_hit (env : Env) (e : Expr) (p : NodePath) (s : List NodePath)
    (h : p ∈ s) : evalC env e p s = (evalVal env e, s, []) := by
  cases e <;> simp [evalC, h, evalVal]

/-- Unfolding equation for `evalC` on a call node, phrased with
projections. -/
theorem evalC_call_eq (env : Env) (f : Nat) (a : Expr) (p : NodePath)
    (s : List NodePath) :
    evalC env (.call f a) p s =
      if p ∈ s then (evalVal env (.call f a), s, [])
      else
        (env.fn f (evalC env a (p ++ [false]) s).1,
         p :: (evalC env a (p ++ [false]) s).2.1,
         (evalC env a (p ++ [false]) s).2.2 ++ [p]) := by
  by_cases h : p ∈ s
  · simp [evalC, h, evalVal]
  · rcases hx : evalC env a (p ++ [false]) s with ⟨va, s1, t1⟩
    simp [evalC, h, hx]

/-- Unfolding equation for `evalC` on a short-circuit AND node. -/
theorem evalC_andif_eq (env : Env) (l r : Expr) (p : NodePath)
    (s : List NodePath) :
    evalC env (.bin .TRUTH_ANDIF_EXPR l r) p s =
      if p ∈ s then (evalVal env (.bin .TRUTH_ANDIF_EXPR l r), s, [])
      else if (evalC env l (p ++ [false]) s).1 = 0 then
        (0, p :: (evalC env l (p ++ [false]) s).2.1,
         (evalC env l (p ++ [false]) s).2.2 ++ [p])
      else
        (if (evalC env r (p ++ [true]) (evalC env l (p ++ [false]) s).2.1).1 ≠ 0 then 1 else 0,
         p :: (evalC env r (p ++ [true]) (evalC env l (p ++ [false]) s).2.1).2.1,
         (evalC env l (p ++ [false]) s).2.2 ++
           (evalC env r (p ++ [true]) (evalC env l (p ++ [false]) s).2.1).2.2 ++ [p]) := by
  by_cases h : p ∈ s
  · simp [evalC, h]
  · rcases hx : evalC env l (p ++ [false]) s with ⟨vl, s1, t1⟩
    rcases hy : evalC env r (p ++ [true]) s1 with ⟨vr, s2, t2⟩
    by_cases hz : vl = 0 <;> simp [evalC, h, hx, hy, hz]

/-- Unfolding equation for `evalC` on a short-circuit OR node. -/
theorem evalC_orif_eq (env : Env) (l r : Expr) (p : NodePath)
    (s : List NodePath) :
    evalC env (.bin .TRUTH_ORIF_EXPR l r) p s =
      if p ∈ s then (evalVal env (.bin .TRUTH_ORIF_EXPR l r), s, [])
      else if (evalC env l (p ++ [false]) s).1 = 0 then
        (if (evalC env r (p ++ [true]) (evalC env l (p ++ [false]) s).2.1).1 ≠ 0 then 1 else 0,
         p :: (evalC env r (p ++ [true]) (evalC env l (p ++ [false]) s).2.1).2.1,
         (evalC env l (p ++ [false]) s).2.2 ++
           (evalC env r (p ++ [true]) (evalC env l (p ++ [false]) s).2.1).2.2 ++ [p])
      else
        (1, p :: (evalC env l (p ++ [false]) s).2.1,
         (evalC env l (p ++ [false]) s).2.2 ++ [p]) := by
  by_cases h : p ∈ s
  · simp [evalC, h]
  · rcases hx : evalC env l (p ++ [false]) s with ⟨vl, s1, t1⟩
    rcases hy : evalC env r (p ++ [true]) s1 with ⟨vr, s2, t2⟩
    by_cases hz : vl = 0 <;> simp [evalC, h, hx, hy, hz]

/-- Unfolding equation for `evalC` on a binary node whose code is not one
of the short-circuit ones: both operands are evaluated in order. -/
theorem evalC_bin_strict_eq (env : Env) (c : tree_code) (l r : Expr)
    (p : NodePath) (s : List NodePath)
    (hc1 : c ≠ .TRUTH_ANDIF_EXPR) (hc2 : c ≠ .TRUTH_ORIF_EXPR) :
    evalC env (.bin c l r) p s =
      if p ∈ s then (evalVal env (.bin c l r), s, [])
      else
        (binApply c (evalC env l (p ++ [false]) s).1
           (evalC env r (p ++ [true]) (evalC env l (p ++ [false]) s).2.1).1,
         p :: (evalC env r (p ++ [true]) (evalC env l (p ++ [false]) s).2.1).2.1,
         (evalC env l (p ++ [false]) s).2.2 ++
           (evalC env r (p ++ [true]) (evalC env l (p ++ [false]) s).2.1).2.2 ++ [p]) := by
  by_cases h : p ∈ s
  · simp [evalC, h]
  · rcases hx : evalC env l (p ++ [false]) s with ⟨vl, s1, t1⟩
    rcases hy : evalC env r (p ++ [true]) s1 with ⟨vr, s2, t2⟩
    cases c <;> simp_all [evalC]

/-- The value `evalC` returns is the pure value of the expression. -/
theorem evalC_val (env : Env) (e : Expr) : ∀ (p : NodePath) (s : List NodePath),
    (evalC env e p s).1 = evalVal env e := by
  induction e with
  | intcst n =>
    intro p s
    by_cases h : p ∈ s <;> simp [evalC, h, evalVal]
  | var v =>
    intro p s
    by_cases h : p ∈ s <;> simp [evalC, h, evalVal]
  | call f a ih =>
    intro p s
    rw [evalC_call_eq]
    by_cases h : p ∈ s
    · simp [h]
    · simp [h, ih, evalVal]
  | bin c l r ihl ihr =>
    intro p s
    by_cases h : p ∈ s
    · rw [evalC_hit env _ p s h]
    · by_cases hc1 : c = tree_code.TRUTH_ANDIF_EXPR
      · subst hc1
        rw [evalC_andif_eq]
        simp only [h, if_false, ihl, ihr, evalVal, binApply]
        split_ifs <;> simp_all
      · by_cases hc2 : c = tree_code.TRUTH_ORIF_EXPR
        · subst hc2
          rw [evalC_orif_eq]
          simp only [h, if_false, ihl, ihr, evalVal, binApply]
          split_ifs <;> simp_all
        · rw [evalC_bin_strict_eq env c l r p s hc1 hc2]
          simp [h, ihl, ihr, evalVal]

/-- Composition of the memo-set facts for a node with one evaluated
child. -/
theorem mem_glue1 (p : NodePath) (b : Bool) (s s1 T1 : List NodePath)
    (n1 : T1.Nodup)
    (f1 : ∀ q ∈ T1, q ∉ s ∧ ∃ u, q = p ++ [b] ++ u)
    (i1 : ∀ q, q ∈ s1 ↔ q ∈ s ∨ q ∈ T1)
    (hp : p ∉ s) :
    p ∈ p :: s1 ∧ (T1 ++ [p]).Nodup ∧
    (∀ q ∈ T1 ++ [p], q ∉ s ∧ ∃ u, q = p ++ u) ∧
    (∀ q, q ∈ p :: s1 ↔ q ∈ s ∨ q ∈ T1 ++ [p]) := by
  have hpT1 : p ∉ T1 := by
    intro hmem
    obtain ⟨-, u, hu⟩ := f1 p hmem
    exact ext_ne_self p b u hu.symm
  refine ⟨List.mem_cons_self p s1, ?_, ?_, ?_⟩
  · exact List.Nodup.append n1 (by simp)
      (fun a ha hpa => by
        simp only [List.mem_singleton] at hpa
        exact hpT1 (hpa ▸ ha))
  · intro q hq
    rcases List.mem_append.mp hq with hq1 | hq2
    · obtain ⟨hns, u, hu⟩ := f1 q hq1
      exact ⟨hns, [b] ++ u, by simpa [List.append_assoc] using hu⟩
    · simp only [List.mem_singleton] at hq2
      subst hq2
      exact ⟨hp, [], by simp⟩
  · intro q
    simp only [List.mem_cons, List.mem_append, List.mem_singleton, i1 q]
    tauto

/-- Composition of the memo-set facts for a node with two children
evaluated in sequence (left then right). -/
theorem mem_glue2 (p : NodePath) (s s1 s2 T1 T2 : List NodePath)
    (n1 : T1.Nodup)
    (f1 : ∀ q ∈ T1, q ∉ s ∧ ∃ u, q = p ++ [false] ++ u)
    (i1 : ∀ q, q ∈ s1 ↔ q ∈ s ∨ q ∈ T1)
    (n2 : T2.Nodup)
    (f2 : ∀ q ∈ T2, q ∉ s1 ∧ ∃ u, q = p ++ [true] ++ u)
    (i2 : ∀ q, q ∈ s2 ↔ q ∈ s1 ∨ q ∈ T2)
    (hp : p ∉ s) :
    p ∈ p :: s2 ∧ (T1 ++ T2 ++ [p]).Nodup ∧
    (∀ q ∈ T1 ++ T2 ++ [p], q ∉ s ∧ ∃ u, q = p ++ u) ∧
    (∀ q, q ∈ p :: s2 ↔ q ∈ s ∨ q ∈ T1 ++ T2 ++ [p]) := by
  have hpT1 : p ∉ T1 := by
    intro hmem
    obtain ⟨-, u, hu⟩ := f1 p hmem
    exact ext_ne_self p false u hu.symm
  have hpT2 : p ∉ T2 := by
    intro hmem
    obtain ⟨-, u, hu⟩ := f2 p hmem
    exact ext_ne_self p true u hu.symm
  have hd12 : T1.Disjoint T2 := by
    intro a ha1 ha2
    exact (f2 a ha2).1 ((i1 a).mpr (Or.inr ha1))
  have n12 : (T1 ++ T2).Nodup := List.Nodup.append n1 n2 hd12
  refine ⟨List.mem_cons_self p s2, ?_, ?_, ?_⟩
  · exact List.Nodup.append n12 (by simp)
      (fun a ha hpa => by
        simp only [List.mem_singleton] at hpa
        subst hpa
        rcases List.mem_append.mp ha with h1 | h2
        · exact hpT1 h1
        · exact hpT2 h2)
  · intro q hq
    rcases List.mem_append.mp hq with hq12 | hqp
    · rcases List.mem_append.mp hq12 with hq1 | hq2
      · obtain ⟨hns, u, hu⟩ := f1 q hq1
        exact ⟨hns, [false] ++ u, by simpa [List.append_assoc] using hu⟩
      · obtain ⟨hns1, u, hu⟩ := f2 q hq2
        exact ⟨fun hqs => hns1 ((i1 q).mpr (Or.inl hqs)),
          [true] ++ u, by simpa [List.append_assoc] using hu⟩
    · simp only [List.mem_singleton] at hqp
      subst hqp
      exact ⟨hp, [], by simp⟩
  · intro q
    simp only [List.mem_cons, List.mem_append, List.mem_singleton, i1 q, i2 q]
    tauto

/-- Memo-set bundle for `evalC`: the node's own path ends up memoized, the
trace has no duplicates (nothing is evaluated twice), every traced path is
fresh (not previously memoized) and sits below the node, and the new memo
set is exactly the old one plus the trace. -/
theorem evalC_mem (env : Env) (e : Expr) : ∀ (p : NodePath) (s : List NodePath),
    p ∈ (evalC env e p s).2.1 ∧
    (evalC env e p s).2.2.Nodup ∧
    (∀ q ∈ (evalC env e p s).2.2, q ∉ s ∧ ∃ u, q = p ++ u) ∧
    (∀ q, q ∈ (evalC env e p s).2.1 ↔ q ∈ s ∨ q ∈ (evalC env e p s).2.2) := by
  induction e with
  | intcst n =>
    intro p s
    by_cases h : p ∈ s
    · refine ⟨by simp [evalC, h], by simp [evalC, h], by simp [evalC, h], ?_⟩
      intro q
      simp [evalC, h]
    · refine ⟨by simp [evalC, h], by simp [evalC, h], ?_, ?_⟩
      · intro q hq
        simp only [evalC, if_neg h] at hq
        simp only [List.mem_singleton] at hq
        subst hq
        exact ⟨h, [], by simp⟩
      · intro q
        simp only [evalC, if_neg h, List.mem_cons, List.mem_singleton]
        tauto
  | var v =>
    intro p s
    by_cases h : p ∈ s
    · refine ⟨by simp [evalC, h], by simp [evalC, h], by simp [evalC, h], ?_⟩
      intro q
      simp [evalC, h]
    · refine ⟨by simp [evalC, h], by simp [evalC, h], ?_, ?_⟩
      · intro q hq
        simp only [evalC, if_neg h] at hq
        simp only [List.mem_singleton] at hq
        subst hq
        exact ⟨h, [], by simp⟩
      · intro q
        simp only [evalC, if_neg h, List.mem_cons, List.mem_singleton]
        tauto
  | call f a ih =>
    intro p s
    rw [evalC_call_eq]
    by_cases h : p ∈ s
    · refine ⟨?_, ?_, ?_, ?_⟩ <;> simp [h]
    · obtain ⟨-, n1, f1, i1⟩ := ih (p ++ [false]) s
      simpa [h] using mem_glue1 p false s _ _ n1 f1 i1 h
  | bin c l r ihl ihr =>
    intro p s
    by_cases h : p ∈ s
    · rw [evalC_hit env _ p s h]
      refine ⟨?_, ?_, ?_, ?_⟩ <;> simp [h]
    · by_cases hc1 : c = tree_code.TRUTH_ANDIF_EXPR
      · subst hc1
        rw [evalC_andif_eq]
        obtain ⟨-, n1, f1, i1⟩ := ihl (p ++ [false]) s
        obtain ⟨-, n2, f2, i2⟩ := ihr (p ++ [true]) (evalC env l (p ++ [false]) s).2.1
        by_cases hz : (evalC env l (p ++ [false]) s).1 = 0
        · simpa [h, hz] using mem_glue1 p false s _ _ n1 f1 i1 h
        · simpa [h, hz] using mem_glue2 p s _ _ _ _ n1 f1 i1 n2 f2 i2 h
      · by_cases hc2 : c = tree_code.TRUTH_ORIF_EXPR
        · subst hc2
          rw [evalC_orif_eq]
          obtain ⟨-, n1, f1, i1⟩ := ihl (p ++ [false]) s
          obtain ⟨-, n2, f2, i2⟩ := ihr (p ++ [true]) (evalC env l (p ++ [false]) s).2.1
          by_cases hz : (evalC env l (p ++ [false]) s).1 = 0
          · simpa [h, hz] using mem_glue2 p s _ _ _ _ n1 f1 i1 n2 f2 i2 h
          · simpa [h, hz] using mem_glue1 p false s _ _ n1 f1 i1 h
        · rw [evalC_bin_strict_eq env c l r p s hc1 hc2]
          obtain ⟨-, n1, f1, i1⟩ := ihl (p ++ [false]) s
          obtain ⟨-, n2, f2, i2⟩ := ihr (p ++ [true]) (evalC env l (p ++ [false]) s).2.1
          simpa [h] using mem_glue2 p s _ _ _ _ n1 f1 i1 n2 f2 i2 h

/-- Unfolding equation for `execGS` on a value print, with projections. -/
theorem execGS_printf_d_eq (env : Env) (e : Expr) (p : NodePath)
    (s : List NodePath) :
    execGS env (.printf_d e p) s =
      (toString (evalC env e p s).1, (evalC env e p s).2.1,
       (evalC env e p s).2.2) := by
  rcases h : evalC env e p s with ⟨v, s1, t⟩
  simp [execGS, h]

/-- Unfolding equation for `execGS` on a sequence, with projections. -/
theorem execGS_seq_eq (env : Env) (a b : GS) (s : List NodePath) :
    execGS env (.seq a b) s =
      ((execGS env a s).1 ++ (execGS env b (execGS env a s).2.1).1,
       (execGS env b (execGS env a s).2.1).2.1,
       (execGS env a s).2.2 ++ (execGS env b (execGS env a s).2.1).2.2) := by
  rcases ha : execGS env a s with ⟨o1, s1, t1⟩
  rcases hb : execGS env b s1 with ⟨o2, s2, t2⟩
  simp [execGS, ha, hb]

/-- Unfolding equation for `execGS` on a conditional, with projections. -/
theorem execGS_cond_eq (env : Env) (e : Expr) (p : NodePath) (a b : GS)
    (s : List NodePath) :
    execGS env (.cond e p a b) s =
      if (evalC env e p s).1 = 0 then
        ((execGS env b (evalC env e p s).2.1).1,
         (execGS env b (evalC env e p s).2.1).2.1,
         (evalC env e p s).2.2 ++ (execGS env b (evalC env e p s).2.1).2.2)
      else
        ((execGS env a (evalC env e p s).2.1).1,
         (execGS env a (evalC env e p s).2.1).2.1,
         (evalC env e p s).2.2 ++ (execGS env a (evalC env e p s).2.1).2.2) := by
  rcases h : evalC env e p s with ⟨v, s1, t⟩
  by_cases hz : v = 0
  · rcases hb : execGS env b s1 with ⟨o, s2, t2⟩
    simp [execGS, h, hb, hz]
  · rcases ha : execGS env a s1 with ⟨o, s2, t2⟩
    simp [execGS, h, ha, hz]

/-- The text printed by the generated statements is their pure output:
it depends only on the environment, never on the memo state. -/
theorem execGS_fst (env : Env) (g : GS) : ∀ (s : List NodePath),
    (execGS env g s).1 = gsOut env g := by
  induction g with
  | printf str => intro s; rfl
  | printf_d e p =>
    intro s
    rw [execGS_printf_d_eq, evalC_val]
    rfl
  | seq a b iha ihb =>
    intro s
    rw [execGS_seq_eq, iha, ihb]
    rfl
  | cond e p a b iha ihb =>
    intro s
    rw [execGS_cond_eq, evalC_val]
    by_cases hz : evalVal env e = 0
    · simp [gsOut, hz, ihb]
    · simp [gsOut, hz, iha]
  | empty => intro s; rfl

/-- Shape of the generated code for a short-circuit AND node: branch on
the left operand; right continuation statements if it passed, left
statements if it failed. -/
theorem mker_andif_eq (l r : Expr) (p : NodePath) :
    make_conditional_expr_repr (.bin .TRUTH_ANDIF_EXPR l r) p =
      GS.cond l (p ++ [false])
        (GS.seq (GS.printf "(...) && (")
          (GS.seq (make_conditional_expr_repr r (p ++ [true])) (GS.printf ")")))
        (make_conditional_expr_repr l (p ++ [false])) := rfl

/-- Shape of the generated code for a non-short-circuit AND node: same as
for the short-circuit one. -/
theorem mker_and_eq (l r : Expr) (p : NodePath) :
    make_conditional_expr_repr (.bin .TRUTH_AND_EXPR l r) p =
      GS.cond l (p ++ [false])
        (GS.seq (GS.printf "(...) && (")
          (GS.seq (make_conditional_expr_repr r (p ++ [true])) (GS.printf ")")))
        (make_conditional_expr_repr l (p ++ [false])) := rfl

/-- Shape of the generated code for a short-circuit OR node: branch on
the whole OR; print nothing if it passed, both operands if it failed. -/
theorem mker_orif_eq (l r : Expr) (p : NodePath) :
    make_conditional_expr_repr (.bin .TRUTH_ORIF_EXPR l r) p =
      GS.cond (.bin .TRUTH_ORIF_EXPR l r) p GS.empty
        (GS.seq (GS.printf "(")
          (GS.seq (make_conditional_expr_repr l (p ++ [false]))
            (GS.seq (GS.printf ") || (")
              (GS.seq (make_conditional_expr_repr r (p ++ [true]))
                (GS.printf ")"))))) := rfl

/-- Shape of the generated code for a non-short-circuit OR node. -/
theorem mker_or_eq (l r : Expr) (p : NodePath) :
    make_conditional_expr_repr (.bin .TRUTH_OR_EXPR l r) p =
      GS.cond (.bin .TRUTH_OR_EXPR l r) p GS.empty
        (GS.seq (GS.printf "(")
          (GS.seq (make_conditional_expr_repr l (p ++ [false]))
            (GS.seq (GS.printf ") || (")
              (GS.seq (make_conditional_expr_repr r (p ++ [true]))
                (GS.printf ")"))))) := rfl

/-- Shape of the generated code for an equality node: operands flanking
the glyph, unparenthesized. -/
theorem mker_eq_eq (l r : Expr) (p : NodePath) :
    make_conditional_expr_repr (.bin .EQ_EXPR l r) p =
      GS.seq (make_conditional_expr_repr l (p ++ [false]))
        (GS.seq (GS.printf " == ")
          (make_conditional_expr_repr r (p ++ [true]))) := rfl

/-- Shape of the generated code for an inequality node. -/
theorem mker_ne_eq (l r : Expr) (p : NodePath) :
    make_conditional_expr_repr (.bin .NE_EXPR l r) p =
      GS.seq (make_conditional_expr_repr l (p ++ [false]))
        (GS.seq (GS.printf " != ")
          (make_conditional_expr_repr r (p ++ [true]))) := rfl

/-- Shape of the generated code for an addition node. -/
theorem mker_plus_eq (l r : Expr) (p : NodePath) :
    make_conditional_expr_repr (.bin .PLUS_EXPR l r) p =
      GS.seq (make_conditional_expr_repr l (p ++ [false]))
        (GS.seq (GS.printf " + ")
          (make_conditional_expr_repr r (p ++ [true]))) := rfl

/-- Shape of the generated code for a subtraction node. -/
theorem mker_minus_eq (l r : Expr) (p : NodePath) :
    make_conditional_expr_repr (.bin .MINUS_EXPR l r) p =
      GS.seq (make_conditional_expr_repr l (p ++ [false]))
        (GS.seq (GS.printf " - ")
          (make_conditional_expr_repr r (p ++ [true]))) := rfl

/-- Shape of the generated code for a multiplication node. -/
theorem mker_mult_eq (l r : Expr) (p : NodePath) :
    make_conditional_expr_repr (.bin .MULT_EXPR l r) p =
      GS.seq (make_conditional_expr_repr l (p ++ [false]))
        (GS.seq (GS.printf " * ")
          (make_conditional_expr_repr r (p ++ [true]))) := rfl

/-- Shape of the generated code for a division node. -/
theorem mker_div_eq (l r : Expr) (p : NodePath) :
    make_conditional_expr_repr (.bin .TRUNC_DIV_EXPR l r) p =
      GS.seq (make_conditional_expr_repr l (p ++ [false]))
        (GS.seq (GS.printf " / ")
          (make_conditional_expr_repr r (p ++ [true]))) := rfl

/-- A node the operator table does not recognize is rendered as a single
plain-value print, never decomposed. -/
theorem mker_leaf_eq (e : Expr) (p : NodePath)
    (hop : get_expr_op_repr e = none) :
    make_conditional_expr_repr e p = GS.printf_d e p := by
  cases e with
  | intcst n => rfl
  | var v => rfl
  | call f a => rfl
  | bin c l r => cases c <;> simp_all [get_expr_op_repr, make_conditional_expr_repr]

/-- A literal print leaves the memo state alone and evaluates nothing. -/
theorem exec_snd_printf (env : Env) (str : String) (m : List NodePath) :
    (execGS env (GS.printf str) m).2 = (m, []) := rfl

/-- The empty statement leaves the memo state alone and evaluates
nothing. -/
theorem exec_snd_empty (env : Env) (m : List NodePath) :
    (execGS env GS.empty m).2 = (m, []) := rfl

/-- Printing a memoized value leaves the memo state alone and evaluates
nothing afresh. -/
theorem exec_snd_printf_d (env : Env) (e : Expr) (p : NodePath)
    (m : List NodePath) (h : p ∈ m) :
    (execGS env (GS.printf_d e p) m).2 = (m, []) := by
  rw [execGS_printf_d_eq, evalC_hit env e p m h]

/-- Sequencing two executions that each leave the memo state alone and
evaluate nothing does the same. -/
theorem exec_snd_seq (env : Env) (a b : GS) (m : List NodePath)
    (ha : (execGS env a m).2 = (m, []))
    (hb : (execGS env b m).2 = (m, [])) :
    (execGS env (GS.seq a b) m).2 = (m, []) := by
  have ha1 : (execGS env a m).2.1 = m := by rw [ha]
  have ha2 : (execGS env a m).2.2 = [] := by rw [ha]
  have hb1 : (execGS env b m).2.1 = m := by rw [hb]
  have hb2 : (execGS env b m).2.2 = [] := by rw [hb]
  rw [execGS_seq_eq]
  simp [ha1, ha2, hb1, hb2]

/-- A conditional on a memoized node evaluates nothing itself; if the
branch actually taken also leaves the state alone, so does the whole
conditional. -/
theorem exec_snd_cond_hit (env : Env) (e : Expr) (p : NodePath) (a b : GS)
    (m : List NodePath) (hp : p ∈ m)
    (hbr : (execGS env (if evalVal env e = 0 then b else a) m).2 = (m, [])) :
    (execGS env (GS.cond e p a b) m).2 = (m, []) := by
  rw [execGS_cond_eq, evalC_hit env e p m hp]
  by_cases hz : evalVal env e = 0
  · rw [if_pos hz] at hbr
    rcases hhb : execGS env b m with ⟨o, s2, t2⟩
    rw [hhb] at hbr
    simp only [Prod.mk.injEq] at hbr
    obtain ⟨rfl, rfl⟩ := hbr
    simp [hz, hhb]
  · rw [if_neg hz] at hbr
    rcases hha : execGS env a m with ⟨o, s2, t2⟩
    rw [hha] at hbr
    simp only [Prod.mk.injEq] at hbr
    obtain ⟨rfl, rfl⟩ := hbr
    simp [hz, hha]

/-- The covering theorem: once the (captured) condition has been
evaluated, executing the generated diagnostic code touches only memoized
nodes — it performs no fresh evaluation and leaves the memo state
unchanged.  `s0` is the memo state the condition evaluation started from
(fresh for the whole subtree), `m` any state containing everything that
evaluation memoized. -/
theorem exec_covered (env : Env) (e : Expr) :
    ∀ (p : NodePath) (s0 m : List NodePath),
    (∀ q, (∃ u, q = p ++ u) → q ∉ s0) →
    (∀ q ∈ (evalC env e p s0).2.1, q ∈ m) →
    (execGS env (make_conditional_expr_repr e p) m).2 = (m, []) := by
  induction e with
  | intcst n =>
    intro p s0 m hfresh hsub
    exact exec_snd_printf_d env _ p m (hsub p (evalC_mem env (.intcst n) p s0).1)
  | var v =>
    intro p s0 m hfresh hsub
    exact exec_snd_printf_d env _ p m (hsub p (evalC_mem env (.var v) p s0).1)
  | call f a ih =>
    intro p s0 m hfresh hsub
    exact exec_snd_printf_d env _ p m (hsub p (evalC_mem env (.call f a) p s0).1)
  | bin c l r ihl ihr =>
    intro p s0 m hfresh hsub
    have hp0 : p ∉ s0 := hfresh p ⟨[], by simp⟩
    have hfreshl : ∀ q, (∃ u, q = (p ++ [false]) ++ u) → q ∉ s0 := by
      intro q hq
      obtain ⟨u, hu⟩ := hq
      exact hfresh q ⟨[false] ++ u, by rw [hu, List.append_assoc]⟩
    have hfreshr : ∀ q, (∃ u, q = (p ++ [true]) ++ u) →
        q ∉ (evalC env l (p ++ [false]) s0).2.1 := by
      intro q hq hqmem
      obtain ⟨u, hu⟩ := hq
      rcases ((evalC_mem env l (p ++ [false]) s0).2.2.2 q).mp hqmem with hs | ht
      · exact hfresh q ⟨[true] ++ u, by rw [hu, List.append_assoc]⟩ hs
      · obtain ⟨-, u', hu'⟩ := (evalC_mem env l (p ++ [false]) s0).2.2.1 q ht
        exact ext_disj p u' u (hu' ▸ hu)
    cases c
    case TRUTH_ANDIF_EXPR =>
      rw [mker_andif_eq]
      rw [evalC_andif_eq, if_neg hp0] at hsub
      by_cases hz : (evalC env l (p ++ [false]) s0).1 = 0
      · rw [if_pos hz] at hsub
        have hs1m : ∀ q ∈ (evalC env l (p ++ [false]) s0).2.1, q ∈ m :=
          fun q hq => hsub q (List.mem_cons_of_mem _ hq)
        have hplm : p ++ [false] ∈ m := hs1m _ (evalC_mem env l _ s0).1
        have hvl0 : evalVal env l = 0 := by
          rw [← evalC_val env l (p ++ [false]) s0]; exact hz
        apply exec_snd_cond_hit env l (p ++ [false]) _ _ m hplm
        rw [if_pos hvl0]
        exact ihl (p ++ [false]) s0 m hfreshl hs1m
      · rw [if_neg hz] at hsub
        have hs2m : ∀ q ∈ (evalC env r (p ++ [true])
            (evalC env l (p ++ [false]) s0).2.1).2.1, q ∈ m :=
          fun q hq => hsub q (List.mem_cons_of_mem _ hq)
        have hs1m : ∀ q ∈ (evalC env l (p ++ [false]) s0).2.1, q ∈ m :=
          fun q hq => hs2m q
            (((evalC_mem env r (p ++ [true]) _).2.2.2 q).mpr (Or.inl hq))
        have hplm : p ++ [false] ∈ m := hs1m _ (evalC_mem env l _ s0).1
        have hvl : ¬ evalVal env l = 0 := by
          rw [← evalC_val env l (p ++ [false]) s0]; exact hz
        apply exec_snd_cond_hit env l (p ++ [false]) _ _ m hplm
        rw [if_neg hvl]
        exact exec_snd_seq env _ _ m (exec_snd_printf env _ m)
          (exec_snd_seq env _ _ m
            (ihr (p ++ [true]) _ m hfreshr hs2m)
            (exec_snd_printf env _ m))
    case TRUTH_AND_EXPR =>
      rw [mker_and_eq]
      rw [evalC_bin_strict_eq env _ l r p s0 (by decide) (by decide),
        if_neg hp0] at hsub
      have hs2m : ∀ q ∈ (evalC env r (p ++ [true])
          (evalC env l (p ++ [false]) s0).2.1).2.1, q ∈ m :=
        fun q hq => hsub q (List.mem_cons_of_mem _ hq)
      have hs1m : ∀ q ∈ (evalC env l (p ++ [false]) s0).2.1, q ∈ m :=
        fun q hq => hs2m q
          (((evalC_mem env r (p ++ [true]) _).2.2.2 q).mpr (Or.inl hq))
      have hplm : p ++ [false] ∈ m := hs1m _ (evalC_mem env l _ s0).1
      apply exec_snd_cond_hit env l (p ++ [false]) _ _ m hplm
      by_cases hvl : evalVal env l = 0
      · rw [if_pos hvl]
        exact ihl (p ++ [false]) s0 m hfreshl hs1m
      · rw [if_neg hvl]
        exact exec_snd_seq env _ _ m (exec_snd_printf env _ m)
          (exec_snd_seq env _ _ m
            (ihr (p ++ [true]) _ m hfreshr hs2m)
            (exec_snd_printf env _ m))
    case TRUTH_ORIF_EXPR =>
      rw [mker_orif_eq]
      rw [evalC_orif_eq, if_neg hp0] at hsub
      by_cases hz : (evalC env l (p ++ [false]) s0).1 = 0
      · rw [if_pos hz] at hsub
        have hpm : p ∈ m := hsub p (List.mem_cons_self p _)
        have hs2m : ∀ q ∈ (evalC env r (p ++ [true])
            (evalC env l (p ++ [false]) s0).2.1).2.1, q ∈ m :=
          fun q hq => hsub q (List.mem_cons_of_mem _ hq)
        have hs1m : ∀ q ∈ (evalC env l (p ++ [false]) s0).2.1, q ∈ m :=
          fun q hq => hs2m q
            (((evalC_mem env r (p ++ [true]) _).2.2.2 q).mpr (Or.inl hq))
        apply exec_snd_cond_hit env _ p _ _ m hpm
        by_cases hv : evalVal env (.bin .TRUTH_ORIF_EXPR l r) = 0
        · rw [if_pos hv]
          exact exec_snd_seq env _ _ m (exec_snd_printf env _ m)
            (exec_snd_seq env _ _ m
              (ihl (p ++ [false]) s0 m hfreshl hs1m)
              (exec_snd_seq env _ _ m (exec_snd_printf env _ m)
                (exec_snd_seq env _ _ m
                  (ihr (p ++ [true]) _ m hfreshr hs2m)
                  (exec_snd_printf env _ m))))
        · rw [if_neg hv]
          exact exec_snd_empty env m
      · rw [if_neg hz] at hsub
        have hpm : p ∈ m := hsub p (List.mem_cons_self p _)
        have hvl : ¬ evalVal env l = 0 := by
          rw [← evalC_val env l (p ++ [false]) s0]; exact hz
        have hv : ¬ evalVal env (.bin .TRUTH_ORIF_EXPR l r) = 0 := by
          simp [evalVal, binApply, hvl]
        apply exec_snd_cond_hit env _ p _ _ m hpm
        rw [if_neg hv]
        exact exec_snd_empty env m
    case TRUTH_OR_EXPR =>
      rw [mker_or_eq]
      rw [evalC_bin_strict_eq env _ l r p s0 (by decide) (by decide),
        if_neg hp0] at hsub
      have hpm : p ∈ m := hsub p (List.mem_cons_self p _)
      have hs2m : ∀ q ∈ (evalC env r (p ++ [true])
          (evalC env l (p ++ [false]) s0).2.1).2.1, q ∈ m :=
        fun q hq => hsub q (List.mem_cons_of_mem _ hq)
      have hs1m : ∀ q ∈ (evalC env l (p ++ [false]) s0).2.1, q ∈ m :=
        fun q hq => hs2m q
          (((evalC_mem env r (p ++ [true]) _).2.2.2 q).mpr (Or.inl hq))
      apply exec_snd_cond_hit env _ p _ _ m hpm
      by_cases hv : evalVal env (.bin .TRUTH_OR_EXPR l r) = 0
      · rw [if_pos hv]
        exact exec_snd_seq env _ _ m (exec_snd_printf env _ m)
          (exec_snd_seq env _ _ m
            (ihl (p ++ [false]) s0 m hfreshl hs1m)
            (exec_snd_seq env _ _ m (exec_snd_printf env _ m)
              (exec_snd_seq env _ _ m
                (ihr (p ++ [true]) _ m hfreshr hs2m)
                (exec_snd_printf env _ m))))
      · rw [if_neg hv]
        exact exec_snd_empty env m
    case TRUNC_MOD_EXPR =>
      rw [mker_leaf_eq (.bin .TRUNC_MOD_EXPR l r) p rfl]
      rw [evalC_bin_strict_eq env _ l r p s0 (by decide) (by decide),
        if_neg hp0] at hsub
      exact exec_snd_printf_d env _ p m (hsub p (List.mem_cons_self p _))
    all_goals (
      first
      | rw [mker_eq_eq]
      | rw [mker_ne_eq]
      | rw [mker_plus_eq]
      | rw [mker_minus_eq]
      | rw [mker_mult_eq]
      | rw [mker_div_eq]
    )
    all_goals (
      rw [evalC_bin_strict_eq env _ l r p s0 (by decide) (by decide),
        if_neg hp0] at hsub
      have hs2m : ∀ q ∈ (evalC env r (p ++ [true])
          (evalC env l (p ++ [false]) s0).2.1).2.1, q ∈ m :=
        fun q hq => hsub q (List.mem_cons_of_mem _ hq)
      have hs1m : ∀ q ∈ (evalC env l (p ++ [false]) s0).2.1, q ∈ m :=
        fun q hq => hs2m q
          (((evalC_mem env r (p ++ [true]) _).2.2.2 q).mpr (Or.inl hq))
      exact exec_snd_seq env _ _ m (ihl (p ++ [false]) s0 m hfreshl hs1m)
        (exec_snd_seq env _ _ m (exec_snd_printf env _ m)
          (ihr (p ++ [true]) _ m hfreshr hs2m)))

/-- Unfolding equation for `create_expression_repr` on a recognized
binary operator: both operands' representations are parenthesized. -/
theorem cer_bin_op_eq (c : tree_code) (l r : Expr) (args : List Expr)
    (op : String) (hop : get_expr_op_repr (.bin c l r) = some op) :
    create_expression_repr (.bin c l r) args =
      ("(" ++ (create_expression_repr l args).1 ++ ") " ++ op ++ " (" ++
        (create_expression_repr r (create_expression_repr l args).2).1 ++ ")",
       (create_expression_repr r (create_expression_repr l args).2).2) := by
  rcases hl : create_expression_repr l args with ⟨lf, a1⟩
  rcases hr : create_expression_repr r a1 with ⟨rf, a2⟩
  simp [create_expression_repr, hop, hl, hr]

/-- Unfolding equation for `create_expression_repr` on a node the
operator table does not recognize: one generic placeholder, the node
itself pushed onto the argument list. -/
theorem cer_leaf_eq (e : Expr) (args : List Expr)
    (hop : get_expr_op_repr e = none) :
    create_expression_repr e args = ("%d", args ++ [e]) := by
  cases e with
  | intcst n => rfl
  | var v => rfl
  | call f a => rfl
  | bin c l r => simp [create_expression_repr, hop]

/-- The argument vector after `create_expression_repr` is the incoming
vector extended by the leaves in left-to-right source order. -/
theorem cer_args (e : Expr) : ∀ (args : List Expr),
    (create_expression_repr e args).2 = args ++ leaves e := by
  induction e with
  | intcst n => intro args; simp [create_expression_repr, leaves]
  | var v => intro args; simp [create_expression_repr, leaves]
  | call f a ih => intro args; simp [create_expression_repr, leaves]
  | bin c l r ihl ihr =>
    intro args
    cases hop : get_expr_op_repr (.bin c l r) with
    | none => simp [cer_leaf_eq _ _ hop, leaves, hop]
    | some op =>
      rw [cer_bin_op_eq c l r args op hop]
      simp [leaves, hop, ihl, ihr, List.append_assoc]

/-- The format string `create_expression_repr` builds does not depend on
the incoming argument vector. -/
theorem cer_fst (e : Expr) : ∀ (args : List Expr),
    (create_expression_repr e args).1 = (create_expression_repr e []).1 := by
  induction e with
  | intcst n => intro args; rfl
  | var v => intro args; rfl
  | call f a ih => intro args; rfl
  | bin c l r ihl ihr =>
    intro args
    cases hop : get_expr_op_repr (.bin c l r) with
    | none => rw [cer_leaf_eq _ _ hop, cer_leaf_eq _ _ hop]
    | some op =>
      rw [cer_bin_op_eq c l r args op hop, cer_bin_op_eq c l r [] op hop]
      simp only [ihl args, ihr (create_expression_repr l args).2,
        ihr (create_expression_repr l []).2]

/-- The format string contains exactly one `%` placeholder per leaf: the
accumulated fragments and the argument vector are matched one-to-one. -/
theorem cer_count (e : Expr) :
    ((create_expression_repr e []).1.data.count '%') = (leaves e).length := by
  induction e with
  | intcst n =>
    rw [cer_leaf_eq _ _ (by rfl)]
    simp [leaves]
  | var v =>
    rw [cer_leaf_eq _ _ (by rfl)]
    simp [leaves]
  | call f a ih =>
    rw [cer_leaf_eq _ _ (by rfl)]
    simp [leaves]
  | bin c l r ihl ihr =>
    cases c <;>
      first
      | (rw [cer_leaf_eq _ _ (by rfl)]
         simp [leaves, get_expr_op_repr])
      | (rw [cer_bin_op_eq _ l r [] _ (by rfl), cer_fst r]
         simp only [String.data_append, List.count_append]
         rw [ihl, ihr]
         simp [leaves, get_expr_op_repr, List.length_append])

/-- Unfolding equation for `run_patched_assert`, with projections. -/
theorem run_patched_assert_eq (env : Env) (e : Expr) :
    run_patched_assert env e =
      if (evalC env e [] []).1 = 0 then
        ((evalC env e [] []).1,
         (execGS env (make_conditional_expr_repr e []) (evalC env e [] []).2.1).1,
         (evalC env e [] []).2.2 ++
           (execGS env (make_conditional_expr_repr e []) (evalC env e [] []).2.1).2.2)
      else ((evalC env e [] []).1, "", (evalC env e [] []).2.2) := by
  rcases h : evalC env e [] [] with ⟨v, s1, t1⟩
  by_cases hz : v = 0
  · rcases h2 : execGS env (make_conditional_expr_repr e []) s1 with ⟨o, s2, t2⟩
    simp [run_patched_assert, h, h2, hz]
  · simp [run_patched_assert, h, hz]

/-- Shape of the generated code for a recognized non-logical binary
operator, generically in the code: the operands flank `" op "`,
unparenthesized. -/
theorem mker_op_eq (c : tree_code) (l r : Expr) (p : NodePath) (op : String)
    (hc1 : c ≠ .TRUTH_ANDIF_EXPR) (hc2 : c ≠ .TRUTH_AND_EXPR)
    (hc3 : c ≠ .TRUTH_ORIF_EXPR) (hc4 : c ≠ .TRUTH_OR_EXPR)
    (hop : get_expr_op_repr (.bin c l r) = some op) :
    make_conditional_expr_repr (.bin c l r) p =
      GS.seq (make_conditional_expr_repr l (p ++ [false]))
        (GS.seq (GS.printf (" " ++ op ++ " "))
          (make_conditional_expr_repr r (p ++ [true]))) := by
  cases c <;> simp_all [get_expr_op_repr, make_conditional_expr_repr]

/-- `iterate_body` on a non-statement-list body: patch exactly when the
assert shape matches, otherwise keep the body untouched. -/
theorem iterate_body_eq (t : PTree) (h : ∀ xs, t ≠ PTree.stmts xs) :
    iterate_body t = if is_assert_fail_cond_expr t then patch_assert t else t := by
  cases t <;>
    first
    | exact absurd rfl (h _)
    | (rw [iterate_body]
       all_goals exact fun _ hx => by cases hx)

/-- The statement-list walk recurses into a `BIND_EXPR` head and keeps
the rest of the iteration going. -/
theorem iterate_stmts_cons_bind (b : PTree) (rest : List PTree) :
    iterate_stmts (PTree.bind b :: rest) =
      PTree.bind (iterate_body b) :: iterate_stmts rest := by
  rw [iterate_stmts]

/-- The statement-list walk leaves a non-`BIND_EXPR` head untouched and
keeps the rest of the iteration going. -/
theorem iterate_stmts_cons_other (s : PTree) (rest : List PTree)
    (h : ∀ b, s ≠ PTree.bind b) :
    iterate_stmts (s :: rest) = s :: iterate_stmts rest := by
  cases s <;>
    first
    | exact absurd rfl (h _)
    | (rw [iterate_stmts]
       all_goals exact fun _ hx => by cases hx)

/-- Structural characterization of `is_assert_fail_cond_expr`: it accepts
exactly a `COND_EXPR` with a `NOP_EXPR` then-branch and an else-branch
calling, through `ADDR_EXPR` of a `FUNCTION_DECL`, a function named
exactly `"__assert_fail"`. -/
theorem is_assert_fail_shape (t : PTree) :
    is_assert_fail_cond_expr t = true ↔
      ∃ (c : Expr) (tn fn : PTree),
        t = PTree.cond c (PTree.nop tn) (PTree.call fn) ∧
        fn = PTree.addr (PTree.func_decl "__assert_fail") := by
  constructor
  · intro h
    cases t <;> simp [is_assert_fail_cond_expr] at h
    rename_i c thn els
    obtain ⟨h1, h2⟩ := h
    cases thn <;> try simp at h1
    rename_i tn
    cases els <;> try simp at h2
    rename_i fn
    cases fn <;> try simp at h2
    rename_i inner
    cases inner <;> try simp at h2
    rename_i name
    subst h2
    exact ⟨c, tn, _, rfl, rfl⟩
  · rintro ⟨c, tn, fn, rfl, rfl⟩
    rfl

/-! ## Worked examples from the spec -/

/-- Environment with x (variable 0) = 0 and y (variable 1) = 0. -/
def envX0Y0 : Env := ⟨fun _ => 0, fun _ v => v⟩

/-- Environment with x (variable 0) = 1 and y (variable 1) = 5. -/
def envX1Y5 : Env := ⟨fun i => if i = 0 then 1 else 5, fun _ v => v⟩

/-- The comparison `x == 1`. -/
def exprX1 : Expr := .bin .EQ_EXPR (.var 0) (.intcst 1)

/-- The comparison `y == 2`. -/
def exprY2 : Expr := .bin .EQ_EXPR (.var 1) (.intcst 2)

/-- The condition `(x == 1) && (y == 2)`. -/
def exprAnd : Expr := .bin .TRUTH_ANDIF_EXPR exprX1 exprY2

/-- The condition `(x == 1) || (y == 2)`. -/
def exprOr : Expr := .bin .TRUTH_ORIF_EXPR exprX1 exprY2

/-- Environment with n (variable 0) = 5 and `call` behaving like the
post's `func` (returns its argument plus 7). -/
def envN5 : Env := ⟨fun _ => 5, fun _ v => v + 7⟩

/-- The condition `call(n) % 2 == 0 && n - 100 == 150`. -/
def exprCall : Expr :=
  .bin .TRUTH_ANDIF_EXPR
    (.bin .EQ_EXPR (.bin .TRUNC_MOD_EXPR (.call 0 (.var 0)) (.intcst 2))
      (.intcst 0))
    (.bin .EQ_EXPR (.bin .MINUS_EXPR (.var 0) (.intcst 100)) (.intcst 150))

/-- The path of the `call(n)` node inside `exprCall`. -/
def callPath : NodePath := [false, false, false]

/-! ## The claims -/

/-- C1: for every assertion condition, each sub-expression is evaluated
at most once per runtime check of the patched assertion — the combined
trace of the condition evaluation and of the diagnostic execution never
repeats a node, whatever the outcome; in particular, checking
`call(n) % 2 == 0 && n - 100 == 150` with n = 5 executes the `call` node
exactly once. -/
theorem claim_C1_single_evaluation :
    (∀ (env : Env) (e : Expr), (run_patched_assert env e).2.2.Nodup) ∧
    (run_patched_assert envN5 exprCall).2.2.count callPath = 1 := by
  constructor
  · intro env e
    rw [run_patched_assert_eq]
    by_cases hz : (evalC env e [] []).1 = 0
    · rw [if_pos hz]
      have hcov := exec_covered env e [] [] ((evalC env e [] []).2.1)
        (by simp) (fun q hq => hq)
      have ht2 : (execGS env (make_conditional_expr_repr e [])
          (evalC env e [] []).2.1).2.2 = [] := by rw [hcov]
      simp only [ht2, List.append_nil]
      exact (evalC_mem env e [] []).2.1
    · rw [if_neg hz]
      exact (evalC_mem env e [] []).2.1
  · decide

/-- C2: the generated code for a `LogicalAnd` branches on the left
operand's (captured) truth value; if the left is false it renders the
left alone, if the left is true it renders the right wrapped in
`"(...) && ("` and `")"`; `(x == 1) && (y == 2)` with x = 0 renders
exactly `0 == 1`, and with x = 1, y = 5 renders `(...) && (5 == 2)`. -/
theorem claim_C2_and_short_circuit :
    (∀ (l r : Expr) (p : NodePath),
      make_conditional_expr_repr (.bin .TRUTH_ANDIF_EXPR l r) p =
        GS.cond l (p ++ [false])
          (GS.seq (GS.printf "(...) && (")
            (GS.seq (make_conditional_expr_repr r (p ++ [true]))
              (GS.printf ")")))
          (make_conditional_expr_repr l (p ++ [false]))) ∧
    (∀ (env : Env) (l r : Expr) (p : NodePath) (s : List NodePath),
      evalVal env l = 0 →
      (execGS env (make_conditional_expr_repr (.bin .TRUTH_ANDIF_EXPR l r) p) s).1 =
        (execGS env (make_conditional_expr_repr l (p ++ [false])) s).1) ∧
    (∀ (env : Env) (l r : Expr) (p : NodePath) (s : List NodePath),
      evalVal env l ≠ 0 →
      (execGS env (make_conditional_expr_repr (.bin .TRUTH_ANDIF_EXPR l r) p) s).1 =
        "(...) && (" ++
          (execGS env (make_conditional_expr_repr r (p ++ [true])) s).1 ++ ")") ∧
    (execGS envX0Y0 (make_conditional_expr_repr exprAnd []) []).1 = "0 == 1" ∧
    (execGS envX1Y5 (make_conditional_expr_repr exprAnd []) []).1 =
      "(...) && (5 == 2)" := by
  refine ⟨fun l r p => mker_andif_eq l r p, ?_, ?_, by decide, by decide⟩
  · intro env l r p s h
    simp only [execGS_fst]
    rw [mker_andif_eq]
    simp [gsOut, h]
  · intro env l r p s h
    simp only [execGS_fst]
    rw [mker_andif_eq]
    simp [gsOut, h, String.append_assoc]

/-- C2 witness: the two output equations at the spec's concrete inputs. -/
theorem claim_C2_witness :
    (execGS envX0Y0
        (make_conditional_expr_repr (.bin .TRUTH_ANDIF_EXPR exprX1 exprY2) []) []).1 =
      (execGS envX0Y0 (make_conditional_expr_repr exprX1 ([] ++ [false])) []).1 ∧
    (execGS envX1Y5
        (make_conditional_expr_repr (.bin .TRUTH_ANDIF_EXPR exprX1 exprY2) []) []).1 =
      "(...) && (" ++
        (execGS envX1Y5 (make_conditional_expr_repr exprY2 ([] ++ [true])) []).1 ++ ")" :=
  ⟨claim_C2_and_short_circuit.2.1 envX0Y0 exprX1 exprY2 [] [] (by decide),
   claim_C2_and_short_circuit.2.2.1 envX1Y5 exprX1 exprY2 [] [] (by decide)⟩

/-- C3: the generated code for a `LogicalOr` branches on the whole OR's
(captured) truth value; if the OR is true it renders nothing (and a
passed assertion executes no diagnostic code at all), if it is false it
renders `"("` left `") || ("` right `")"`; `(x == 1) || (y == 2)` with
x = 0, y = 0 renders `(0 == 1) || (0 == 2)`, and with x = 1 no diagnostic
code executes. -/
theorem claim_C3_or_rendering :
    (∀ (l r : Expr) (p : NodePath),
      make_conditional_expr_repr (.bin .TRUTH_ORIF_EXPR l r) p =
        GS.cond (.bin .TRUTH_ORIF_EXPR l r) p GS.empty
          (GS.seq (GS.printf "(")
            (GS.seq (make_conditional_expr_repr l (p ++ [false]))
              (GS.seq (GS.printf ") || (")
                (GS.seq (make_conditional_expr_repr r (p ++ [true]))
                  (GS.printf ")")))))) ∧
    (∀ (env : Env) (l r : Expr) (p : NodePath) (s : List NodePath),
      evalVal env (.bin .TRUTH_ORIF_EXPR l r) ≠ 0 →
      (execGS env (make_conditional_expr_repr (.bin .TRUTH_ORIF_EXPR l r) p) s).1 = "") ∧
    (∀ (env : Env) (l r : Expr) (p : NodePath) (s : List NodePath),
      evalVal env (.bin .TRUTH_ORIF_EXPR l r) = 0 →
      (execGS env (make_conditional_expr_repr (.bin .TRUTH_ORIF_EXPR l r) p) s).1 =
        "(" ++ (execGS env (make_conditional_expr_repr l (p ++ [false])) s).1 ++
          ") || (" ++
          (execGS env (make_conditional_expr_repr r (p ++ [true])) s).1 ++ ")") ∧
    (∀ (env : Env) (e : Expr), evalVal env e ≠ 0 →
      run_patched_assert env e =
        (evalVal env e, "", (evalC env e [] []).2.2)) ∧
    (execGS envX0Y0 (make_conditional_expr_repr exprOr []) []).1 =
      "(0 == 1) || (0 == 2)" ∧
    (run_patched_assert envX1Y5 exprOr).2.1 = "" := by
  refine ⟨fun l r p => mker_orif_eq l r p, ?_, ?_, ?_, by decide, by decide⟩
  · intro env l r p s h
    simp only [execGS_fst]
    rw [mker_orif_eq]
    simp [gsOut, h]
  · intro env l r p s h
    simp only [execGS_fst]
    rw [mker_orif_eq]
    simp [gsOut, h, String.append_assoc]
  · intro env e h
    rw [run_patched_assert_eq, evalC_val, if_neg h]

/-- C3 witness: the output equations and the no-diagnostic fact at the
spec's concrete inputs. -/
theorem claim_C3_witness :
    (execGS envX1Y5
        (make_conditional_expr_repr (.bin .TRUTH_ORIF_EXPR exprX1 exprY2) []) []).1 = "" ∧
    run_patched_assert envX1Y5 exprOr =
      (evalVal envX1Y5 exprOr, "", (evalC envX1Y5 exprOr [] []).2.2) ∧
    (execGS envX0Y0
        (make_conditional_expr_repr (.bin .TRUTH_ORIF_EXPR exprX1 exprY2) []) []).1 =
      "(" ++ (execGS envX0Y0 (make_conditional_expr_repr exprX1 ([] ++ [false])) []).1 ++
        ") || (" ++
        (execGS envX0Y0 (make_conditional_expr_repr exprY2 ([] ++ [true])) []).1 ++ ")" :=
  ⟨claim_C3_or_rendering.2.1 envX1Y5 exprX1 exprY2 [] [] (by decide),
   claim_C3_or_rendering.2.2.2.1 envX1Y5 exprOr (by decide),
   claim_C3_or_rendering.2.2.1 envX0Y0 exprX1 exprY2 [] [] (by decide)⟩

/-- C4: the diagnostic code never reads an operand that short-circuit
rules left unevaluated: executed right after the condition evaluation,
it performs no fresh evaluation whatsoever (its trace is empty) and
leaves the memo state untouched — every value it prints or branches on
is a cached one. -/
theorem claim_C4_no_unevaluated_read :
    ∀ (env : Env) (e : Expr),
      (execGS env (make_conditional_expr_repr e []) (evalC env e [] []).2.1).2 =
        ((evalC env e [] []).2.1, []) :=
  fun env e => exec_covered env e [] [] _ (by simp) (fun q hq => hq)

/-- C5: the positional arguments accumulated for the diagnostic printf
call are exactly the condition's leaf expressions in left-to-right source
order (appended to whatever the vector already held, and starting from
the empty vector as `patch_assert` does), matched one-to-one with the
`%`-placeholders of the accumulated format string. -/
theorem claim_C5_args_in_source_order :
    ∀ (e : Expr),
      (create_expression_repr e []).2 = leaves e ∧
      (∀ (args : List Expr),
        (create_expression_repr e args).2 = args ++ leaves e) ∧
      ((create_expression_repr e []).1.data.count '%') = (leaves e).length :=
  fun e => ⟨by simpa using cer_args e [], cer_args e, cer_count e⟩

/-- Environment for the parenthesization counterexample: variable 0 is 1,
variable 1 is 2, variable 2 is 4. -/
def envC6 : Env :=
  ⟨fun v => if v = 0 then 1 else if v = 1 then 2 else 4, fun _ x => x⟩

/-- The condition `(x + y) == z`. -/
def exprC6a : Expr := .bin .EQ_EXPR (.bin .PLUS_EXPR (.var 0) (.var 1)) (.var 2)

/-- The condition `x + (y == z)`. -/
def exprC6b : Expr := .bin .PLUS_EXPR (.var 0) (.bin .EQ_EXPR (.var 1) (.var 2))

/-- C6 counterexample: the runtime renderer does not parenthesize the
operands of a recognized non-logical binary operator: the structurally
different `(x + y) == z` and `x + (y == z)` render to the
character-identical, parenthesis-free `1 + 2 == 4`, so the rendered
parenthesization does not mirror the parse structure and the recursively
rendered operand `1 + 2` appears with no parentheses around it. -/
theorem claim_C6_counterexample :
    (execGS envC6 (make_conditional_expr_repr exprC6a []) []).1 = "1 + 2 == 4" ∧
    (execGS envC6 (make_conditional_expr_repr exprC6b []) []).1 = "1 + 2 == 4" ∧
    exprC6a ≠ exprC6b ∧
    '(' ∉ ((execGS envC6 (make_conditional_expr_repr exprC6a []) []).1).data := by
  refine ⟨by decide, by decide, by decide, by decide⟩

/-- C6 (amended): the static format builder `create_expression_repr`
parenthesizes every recursively rendered operand of a recognized binary
operator, mirroring the parse structure; the runtime renderer
`make_conditional_expr_repr` parenthesizes only the logical wraps — the
`(...) && (...)` continuation and the `(...) || (...)` pair — while the
operands of a recognized non-logical binary operator are rendered
unparenthesized, joined by the glyph. -/
theorem claim_C6_amended :
    (∀ (c : tree_code) (l r : Expr) (args : List Expr) (op : String),
      get_expr_op_repr (.bin c l r) = some op →
      (create_expression_repr (.bin c l r) args).1 =
        "(" ++ (create_expression_repr l []).1 ++ ") " ++ op ++ " (" ++
          (create_expression_repr r []).1 ++ ")") ∧
    (∀ (env : Env) (c : tree_code) (l r : Expr) (p : NodePath)
        (s : List NodePath) (op : String),
      c ≠ .TRUTH_ANDIF_EXPR → c ≠ .TRUTH_AND_EXPR →
      c ≠ .TRUTH_ORIF_EXPR → c ≠ .TRUTH_OR_EXPR →
      get_expr_op_repr (.bin c l r) = some op →
      (execGS env (make_conditional_expr_repr (.bin c l r) p) s).1 =
        (execGS env (make_conditional_expr_repr l (p ++ [false])) s).1 ++
          " " ++ op ++ " " ++
          (execGS env (make_conditional_expr_repr r (p ++ [true])) s).1) ∧
    (∀ (env : Env) (l r : Expr) (p : NodePath) (s : List NodePath),
      evalVal env (.bin .TRUTH_ORIF_EXPR l r) = 0 →
      (execGS env (make_conditional_expr_repr (.bin .TRUTH_ORIF_EXPR l r) p) s).1 =
        "(" ++ (execGS env (make_conditional_expr_repr l (p ++ [false])) s).1 ++
          ") || (" ++
          (execGS env (make_conditional_expr_repr r (p ++ [true])) s).1 ++ ")") ∧
    (∀ (env : Env) (l r : Expr) (p : NodePath) (s : List NodePath),
      evalVal env l ≠ 0 →
      (execGS env (make_conditional_expr_repr (.bin .TRUTH_ANDIF_EXPR l r) p) s).1 =
        "(...) && (" ++
          (execGS env (make_conditional_expr_repr r (p ++ [true])) s).1 ++ ")") := by
  refine ⟨?_, ?_, ?_, ?_⟩
  · intro c l r args op hop
    rw [cer_bin_op_eq c l r args op hop, cer_fst l args, cer_fst r]
  · intro env c l r p s op hc1 hc2 hc3 hc4 hop
    rw [mker_op_eq c l r p op hc1 hc2 hc3 hc4 hop]
    simp only [execGS_fst]
    simp [gsOut, String.append_assoc]
  · intro env l r p s h
    simp only [execGS_fst]
    rw [mker_orif_eq]
    simp [gsOut, h, String.append_assoc]
  · intro env l r p s h
    simp only [execGS_fst]
    rw [mker_andif_eq]
    simp [gsOut, h, String.append_assoc]

/-- C6 amended witness: the static builder parenthesizes `x == 1`; the
runtime renderer joins the operands of `x + y` without parentheses. -/
theorem claim_C6_amended_witness :
    (create_expression_repr (.bin .EQ_EXPR (.var 0) (.intcst 1)) []).1 =
      "(" ++ (create_expression_repr (.var 0) []).1 ++ ") " ++ "==" ++ " (" ++
        (create_expression_repr (.intcst 1) []).1 ++ ")" ∧
    (execGS envC6
        (make_conditional_expr_repr (.bin .PLUS_EXPR (.var 0) (.var 1)) []) []).1 =
      (execGS envC6 (make_conditional_expr_repr (.var 0) ([] ++ [false])) []).1 ++
        " " ++ "+" ++ " " ++
        (execGS envC6 (make_conditional_expr_repr (.var 1) ([] ++ [true])) []).1 :=
  ⟨claim_C6_amended.1 .EQ_EXPR (.var 0) (.intcst 1) [] "==" (by rfl),
   claim_C6_amended.2.1 envC6 .PLUS_EXPR (.var 0) (.var 1) [] [] "+"
     (by decide) (by decide) (by decide) (by decide) (by rfl)⟩

/-- C7: an occurrence whose shape does not match the expected
condition/failure-call layout is left unmodified, the transformation is
skipped for it alone, the walk continues past it, and the traversal of a
well-formed function body never aborts. -/
theorem claim_C7_unsupported_shape_local :
    (∀ (b : PTree), is_assert_fail_cond_expr b = false →
      (∀ xs, b ≠ PTree.stmts xs) →
      iterate_body b = b ∧
      iterate_function_body (PTree.bind b) = some (PTree.bind b)) ∧
    (∀ (s : PTree) (rest : List PTree), (∀ b, s ≠ PTree.bind b) →
      iterate_stmts (s :: rest) = s :: iterate_stmts rest) ∧
    (∀ (b : PTree) (rest : List PTree),
      iterate_stmts (PTree.bind b :: rest) =
        PTree.bind (iterate_body b) :: iterate_stmts rest) ∧
    (∀ (body : PTree), ∃ t', iterate_function_body (PTree.bind body) = some t') ∧
    (∀ (l : List PTree), ∃ t', iterate_function_body (PTree.stmts l) = some t') := by
  refine ⟨?_, iterate_stmts_cons_other, iterate_stmts_cons_bind, ?_, ?_⟩
  · intro b hfail hnstmts
    have hb : iterate_body b = b := by
      rw [iterate_body_eq b hnstmts, hfail]
      simp
    exact ⟨hb, by rw [iterate_function_body, hb]⟩
  · intro body
    exact ⟨_, rfl⟩
  · intro l
    exact ⟨_, rfl⟩

/-- A statement that fails the assert-shape check (its then-branch is not
a `NOP_EXPR`). -/
def badPT : PTree := PTree.cond (.var 0) (PTree.other 1) (PTree.other 2)

/-- C7 witness: the non-matching occurrence is kept untouched and the
walk continues past a non-`BIND_EXPR` statement. -/
theorem claim_C7_witness :
    (iterate_body badPT = badPT ∧
      iterate_function_body (PTree.bind badPT) = some (PTree.bind badPT)) ∧
    iterate_stmts (PTree.other 7 :: [PTree.bind badPT]) =
      PTree.other 7 :: iterate_stmts [PTree.bind badPT] :=
  ⟨claim_C7_unsupported_shape_local.1 badPT (by rfl) (by simp [badPT]),
   claim_C7_unsupported_shape_local.2.1 (PTree.other 7) [PTree.bind badPT]
     (by simp)⟩

/-- C8: the classifier maps exactly the table's operator kinds to their
display glyphs and everything else (literals, identifiers, calls,
`TRUNC_MOD_EXPR`) to `none`; a `none`-classified node is rendered as one
generic placeholder and never decomposed, while a recognized node is
rendered with its glyph. -/
theorem claim_C8_classifier :
    (∀ (l r : Expr),
      get_expr_op_repr (.bin .EQ_EXPR l r) = some "==" ∧
      get_expr_op_repr (.bin .NE_EXPR l r) = some "!=" ∧
      get_expr_op_repr (.bin .TRUTH_ANDIF_EXPR l r) = some "&&" ∧
      get_expr_op_repr (.bin .TRUTH_AND_EXPR l r) = some "&&" ∧
      get_expr_op_repr (.bin .TRUTH_ORIF_EXPR l r) = some "||" ∧
      get_expr_op_repr (.bin .TRUTH_OR_EXPR l r) = some "||" ∧
      get_expr_op_repr (.bin .PLUS_EXPR l r) = some "+" ∧
      get_expr_op_repr (.bin .MINUS_EXPR l r) = some "-" ∧
      get_expr_op_repr (.bin .MULT_EXPR l r) = some "*" ∧
      get_expr_op_repr (.bin .TRUNC_DIV_EXPR l r) = some "/" ∧
      get_expr_op_repr (.bin .TRUNC_MOD_EXPR l r) = none) ∧
    (∀ n, get_expr_op_repr (.intcst n) = none) ∧
    (∀ v, get_expr_op_repr (.var v) = none) ∧
    (∀ f a, get_expr_op_repr (.call f a) = none) ∧
    (∀ (e : Expr) (p : NodePath), get_expr_op_repr e = none →
      make_conditional_expr_repr e p = GS.printf_d e p) ∧
    (∀ (e : Expr) (args : List Expr), get_expr_op_repr e = none →
      create_expression_repr e args = ("%d", args ++ [e])) ∧
    (∀ (c : tree_code) (l r : Expr) (p : NodePath) (op : String),
      c ≠ .TRUTH_ANDIF_EXPR → c ≠ .TRUTH_AND_EXPR →
      c ≠ .TRUTH_ORIF_EXPR → c ≠ .TRUTH_OR_EXPR →
      get_expr_op_repr (.bin c l r) = some op →
      make_conditional_expr_repr (.bin c l r) p =
        GS.seq (make_conditional_expr_repr l (p ++ [false]))
          (GS.seq (GS.printf (" " ++ op ++ " "))
            (make_conditional_expr_repr r (p ++ [true])))) ∧
    (∀ (c : tree_code) (l r : Expr) (args : List Expr) (op : String),
      get_expr_op_repr (.bin c l r) = some op →
      (create_expression_repr (.bin c l r) args).1 =
        "(" ++ (create_expression_repr l args).1 ++ ") " ++ op ++ " (" ++
          (create_expression_repr r (create_expression_repr l args).2).1 ++
          ")") := by
  refine ⟨?_, fun n => rfl, fun v => rfl, fun f a => rfl, ?_, ?_, ?_, ?_⟩
  · intro l r
    exact ⟨rfl, rfl, rfl, rfl, rfl, rfl, rfl, rfl, rfl, rfl, rfl⟩
  · exact fun e p h => mker_leaf_eq e p h
  · exact fun e args h => cer_leaf_eq e args h
  · exact fun c l r p op hc1 hc2 hc3 hc4 hop =>
      mker_op_eq c l r p op hc1 hc2 hc3 hc4 hop
  · intro c l r args op hop
    rw [cer_bin_op_eq c l r args op hop]

/-- C8 witness: the `%`-kind node (absent from the table) is rendered as
a single placeholder; the call leaf is pushed as one argument. -/
theorem claim_C8_witness :
    make_conditional_expr_repr (.bin .TRUNC_MOD_EXPR (.var 0) (.intcst 2)) [] =
      GS.printf_d (.bin .TRUNC_MOD_EXPR (.var 0) (.intcst 2)) [] ∧
    create_expression_repr (.call 0 (.var 1)) [] =
      ("%d", [] ++ [.call 0 (.var 1)]) :=
  ⟨claim_C8_classifier.2.2.2.2.1 (.bin .TRUNC_MOD_EXPR (.var 0) (.intcst 2)) []
     (by rfl),
   claim_C8_classifier.2.2.2.2.2.1 (.call 0 (.var 1)) [] (by rfl)⟩

/-- A statement that passes the assert-shape check. -/
def assertPT : PTree :=
  PTree.cond (.var 0) (PTree.nop (PTree.other 0))
    (PTree.call (PTree.addr (PTree.func_decl "__assert_fail")))

/-- C9: rewriting an occurrence replaces exactly one subtree — the
failure branch — keeping the condition and the success branch unchanged;
a matched occurrence is rewritten by `patch_assert` alone, and the
statement-list walk keeps every statement in place (same length, same
positions). -/
theorem claim_C9_one_subtree_replaced :
    (∀ (c : Expr) (thn els : PTree),
      patch_assert (PTree.cond c thn els) =
        PTree.cond c thn (PTree.gen (make_conditional_expr_repr c []))) ∧
    (∀ (b : PTree), is_assert_fail_cond_expr b = true →
      iterate_body b = patch_assert b) ∧
    (∀ (l : List PTree), (iterate_stmts l).length = l.length) := by
  refine ⟨fun c thn els => rfl, ?_, ?_⟩
  · intro b h
    have hnstmts : ∀ xs, b ≠ PTree.stmts xs := by
      obtain ⟨c, tn, fn, rfl, -⟩ := (is_assert_fail_shape b).mp h
      simp
    rw [iterate_body_eq b hnstmts, h]
    simp
  · intro l
    induction l with
    | nil => rw [iterate_stmts]
    | cons s rest ih =>
      cases s <;>
        first
        | (rw [iterate_stmts_cons_bind]
           simp [ih])
        | (rw [iterate_stmts_cons_other _ _ (by simp)]
           simp [ih])

/-- C9 witness: the matched occurrence is rewritten by `patch_assert`. -/
theorem claim_C9_witness :
    iterate_body assertPT = patch_assert assertPT :=
  claim_C9_one_subtree_replaced.2.1 assertPT (by rfl)

/-- C10: a statement is rewritten exactly when it is a conditional whose
then-branch is a `NOP_EXPR` and whose else-branch calls, through an
`ADDR_EXPR` of a `FUNCTION_DECL`, a function named exactly
`"__assert_fail"`; a statement failing any of these checks is never
patched and is left untouched. -/
theorem claim_C10_rewrite_iff_shape :
    (∀ (t : PTree), is_assert_fail_cond_expr t = true ↔
      ∃ (c : Expr) (tn fn : PTree),
        t = PTree.cond c (PTree.nop tn) (PTree.call fn) ∧
        fn = PTree.addr (PTree.func_decl "__assert_fail")) ∧
    (∀ (t : PTree), (∀ xs, t ≠ PTree.stmts xs) →
      (iterate_body t ≠ t ↔ is_assert_fail_cond_expr t = true)) := by
  refine ⟨is_assert_fail_shape, ?_⟩
  intro t hnstmts
  constructor
  · intro hne
    by_contra hfalse
    have h0 : is_assert_fail_cond_expr t = false := by
      simpa using hfalse
    apply hne
    rw [iterate_body_eq t hnstmts, h0]
    simp
  · intro h
    rw [iterate_body_eq t hnstmts, h]
    obtain ⟨c, tn, fn, rfl, rfl⟩ := (is_assert_fail_shape t).mp h
    simp [patch_assert]

/-- C10 witness: the matching statement is rewritten (changed). -/
theorem claim_C10_witness :
    iterate_body assertPT ≠ assertPT :=
  (claim_C10_rewrite_iff_shape.2 assertPT (by simp [assertPT])).mpr (by rfl)
